import Mathlib

/-!
Verification of the SPPD (Spanish Public Procurement Database) ingestion core.

This file gives a shallow embedding of the core data-processing functions of
the repository (`src/dl_parser/utils.py` and `src/open_tenders/utils.py`) and
proves or refutes the specified properties about them.

Conventions of the embedding:
* a Python `dict` is an association list `List (String × _)` in insertion
  order; updating an existing key keeps its position, inserting a new key
  appends at the end (CPython semantics);
* a polars `DataFrame` is a list of rows; for the deduplicator a row carries
  the three business-identity columns and the `updated` column, the latter
  already parsed to an integer timestamp (the Python code parses the string
  column with `str.strptime` before sorting);
* a raised Python exception is the `Except.error` branch;
* XML elements are the inductive `Elem` below, with namespaced tags kept in
  lxml's `\x7buri\x7dTag` form.
-/

namespace SPPD

/-- A row of the parsed table, restricted to the columns the deduplicator
touches: the three identity-key candidates and the recency column `updated`
(already parsed to a timestamp, modelled as `Int`). -/
structure RowDF where
  id : String
  link : String
  title : String
  updated : Int
  deriving DecidableEq, Repr

/-- Value of the column named `c` of a row (only the identity-key columns
are addressable; `remove_duplicates` only ever selects `link` or `title`). -/
def colVal (r : RowDF) (c : String) : String :=
  if c = "link" then r.link
  else if c = "title" then r.title
  else if c = "id" then r.id
  else ""

/-- The descending-recency order used by `df.sort("updated", descending=True)`:
`a` comes no later than `b` when `a.updated ≥ b.updated`. -/
def updGe (a b : RowDF) : Prop := b.updated ≤ a.updated

instance : DecidableRel updGe := fun a b => inferInstanceAs (Decidable (b.updated ≤ a.updated))

instance : IsTotal RowDF updGe := ⟨fun a b => le_total b.updated a.updated⟩

instance : IsTrans RowDF updGe := ⟨fun _ _ _ h1 h2 => le_trans h2 h1⟩

/-- `DataFrame.unique(subset=[key], keep="first")`: keep the first row (in
frame order) for each value of the key, drop the rest.  `seen` accumulates
the key values already kept. -/
def uniqueFirst (f : RowDF → String) (seen : List String) : List RowDF → List RowDF
  | [] => []
  | r :: rs =>
    if f r ∈ seen then uniqueFirst f seen rs
    else r :: uniqueFirst f (f r :: seen) rs

/-- `remove_duplicates(df, strategy)` from `src/dl_parser/utils.py`:
`"None"` returns the input unchanged; a strategy outside `["link", "title"]`
raises `ValueError`; otherwise the frame is sorted by `updated` descending and
deduplicated on the strategy column keeping the first (most recent) row. -/
def remove_duplicates (df : List RowDF) (strategy : String) : Except String (List RowDF) :=
  if strategy = "None" then Except.ok df
  else if strategy = "link" ∨ strategy = "title" then
    Except.ok (uniqueFirst (fun r => colVal r strategy) [] (List.insertionSort updGe df))
  else
    Except.error ("Invalid strategy: " ++ strategy ++ ". Allowed strategies are ['link', 'title']")

/-- Every row kept by `uniqueFirst` comes from the input list. -/
theorem uniqueFirst_subset (f : RowDF → String) :
    ∀ (seen : List String) (l : List RowDF), ∀ r ∈ uniqueFirst f seen l, r ∈ l := by
  intro seen l
  induction l generalizing seen with
  | nil => intro r h; simp [uniqueFirst] at h
  | cons x xs ih =>
    intro r h
    by_cases hx : f x ∈ seen
    · simp only [uniqueFirst, if_pos hx] at h
      exact List.mem_cons_of_mem _ (ih seen r h)
    · simp only [uniqueFirst, if_neg hx, List.mem_cons] at h
      rcases h with h | h
      · simp [h]
      · exact List.mem_cons_of_mem _ (ih _ r h)

/-- A kept row's key value was not among the already-seen key values. -/
theorem uniqueFirst_not_seen (f : RowDF → String) :
    ∀ (seen : List String) (l : List RowDF), ∀ r ∈ uniqueFirst f seen l, f r ∉ seen := by
  intro seen l
  induction l generalizing seen with
  | nil => intro r h; simp [uniqueFirst] at h
  | cons x xs ih =>
    intro r h
    by_cases hx : f x ∈ seen
    · simp only [uniqueFirst, if_pos hx] at h
      exact ih seen r h
    · simp only [uniqueFirst, if_neg hx, List.mem_cons] at h
      rcases h with h | h
      · subst h; exact hx
      · have := ih (f x :: seen) r h
        intro hc
        exact this (List.mem_cons_of_mem _ hc)

/-- The kept rows have pairwise distinct key values. -/
theorem uniqueFirst_pairwise (f : RowDF → String) :
    ∀ (seen : List String) (l : List RowDF),
      (uniqueFirst f seen l).Pairwise (fun a b => f a ≠ f b) := by
  intro seen l
  induction l generalizing seen with
  | nil => simp [uniqueFirst]
  | cons x xs ih =>
    by_cases hx : f x ∈ seen
    · simpa [uniqueFirst, if_pos hx] using ih seen
    · simp only [uniqueFirst, if_neg hx]
      refine List.Pairwise.cons ?_ (ih (f x :: seen))
      intro b hb hbx
      have := uniqueFirst_not_seen f (f x :: seen) xs b hb
      exact this (by simp [hbx])

/-- Every input key value is represented among the kept rows (unless it was
already seen). -/
theorem uniqueFirst_covers (f : RowDF → String) :
    ∀ (seen : List String) (l : List RowDF), ∀ r ∈ l,
      f r ∈ seen ∨ ∃ s ∈ uniqueFirst f seen l, f s = f r := by
  intro seen l
  induction l generalizing seen with
  | nil => intro r h; simp at h
  | cons x xs ih =>
    intro r h
    rcases List.mem_cons.mp h with h | h
    · subst h
      by_cases hx : f r ∈ seen
      · exact Or.inl hx
      · exact Or.inr ⟨r, by simp [uniqueFirst, if_neg hx], rfl⟩
    · by_cases hx : f x ∈ seen
      · simpa [uniqueFirst, if_pos hx] using ih seen r h
      · rcases ih (f x :: seen) r h with hseen | ⟨s, hs, hsf⟩
        · rcases List.mem_cons.mp hseen with he | he
          · exact Or.inr ⟨x, by simp [uniqueFirst, if_neg hx], he.symm⟩
          · exact Or.inl he
        · exact Or.inr ⟨s, by simp [uniqueFirst, if_neg hx, hs], hsf⟩

/-- On a list sorted by descending `updated`, each kept row has the maximal
`updated` among all rows of the list sharing its key value. -/
theorem uniqueFirst_max (f : RowDF → String) :
    ∀ (seen : List String) (l : List RowDF), List.Sorted updGe l →
      ∀ s ∈ uniqueFirst f seen l, ∀ r ∈ l, f r = f s → r.updated ≤ s.updated := by
  intro seen l
  induction l generalizing seen with
  | nil => intro _ s hs; simp [uniqueFirst] at hs
  | cons x xs ih =>
    intro hsort s hs r hr hfr
    have hxall : ∀ y ∈ xs, updGe x y := (List.sorted_cons.mp hsort).1
    have hxs : List.Sorted updGe xs := (List.sorted_cons.mp hsort).2
    by_cases hx : f x ∈ seen
    · simp only [uniqueFirst, if_pos hx] at hs
      rcases List.mem_cons.mp hr with h | h
      · -- r = x would force f s = f x ∈ seen, impossible for a kept row
        exfalso
        have := uniqueFirst_not_seen f seen xs s hs
        subst h
        exact this (hfr ▸ hx)
      · exact ih seen hxs s hs r h hfr
    · simp only [uniqueFirst, if_neg hx, List.mem_cons] at hs
      rcases hs with hs | hs
      · subst hs
        rcases List.mem_cons.mp hr with h | h
        · subst h; exact le_refl _
        · exact hxall r h
      · rcases List.mem_cons.mp hr with h | h
        · exfalso
          have := uniqueFirst_not_seen f (f x :: seen) xs s hs
          subst h
          exact this (by simp [hfr])
        · exact ih (f x :: seen) hxs s hs r h hfr

/-- C1: for every table and key column `k` among the accepted deduplication
strategies (`"link"` or `"title"`), `remove_duplicates` succeeds and (a) no two
surviving rows share the same value of `k`, (b) every surviving row's parsed
`updated` timestamp is ≥ the `updated` of every input row sharing its key
value, and (c) every input key value is represented by a surviving row. -/
theorem remove_duplicates_key_spec (df : List RowDF) (k : String)
    (hk : k = "link" ∨ k = "title") :
    ∃ out, remove_duplicates df k = Except.ok out ∧
      out.Pairwise (fun a b => colVal a k ≠ colVal b k) ∧
      (∀ s ∈ out, ∀ r ∈ df, colVal r k = colVal s k → r.updated ≤ s.updated) ∧
      (∀ r ∈ df, ∃ s ∈ out, colVal s k = colVal r k) := by
  have hnone : ¬(k = "None") := by rcases hk with h | h <;> subst h <;> decide
  have hout : remove_duplicates df k =
      Except.ok (uniqueFirst (fun r => colVal r k) [] (List.insertionSort updGe df)) := by
    simp [remove_duplicates, hnone, hk]
  refine ⟨_, hout, uniqueFirst_pairwise _ [] _, ?_, ?_⟩
  · intro s hs r hr hkey
    exact uniqueFirst_max _ [] _ (List.sorted_insertionSort updGe df) s hs r
      ((List.mem_insertionSort updGe).mpr hr) hkey
  · intro r hr
    rcases uniqueFirst_covers (fun r => colVal r k) [] _ r
        ((List.mem_insertionSort updGe).mpr hr) with h | h
    · simp at h
    · exact h

/-- Witness for C1 at a concrete two-row table sharing `link = "L1"`. -/
theorem remove_duplicates_key_spec_witness :
    ("link" = "link" ∨ "link" = "title") ∧
    (∃ out,
      remove_duplicates
        ([⟨"1", "L1", "T1", 1⟩, ⟨"2", "L1", "T2", 2⟩] : List RowDF) "link" = Except.ok out ∧
      out.Pairwise (fun a b => colVal a "link" ≠ colVal b "link") ∧
      (∀ s ∈ out, ∀ r ∈ ([⟨"1", "L1", "T1", 1⟩, ⟨"2", "L1", "T2", 2⟩] : List RowDF),
        colVal r "link" = colVal s "link" → r.updated ≤ s.updated) ∧
      (∀ r ∈ ([⟨"1", "L1", "T1", 1⟩, ⟨"2", "L1", "T2", 2⟩] : List RowDF),
        ∃ s ∈ out, colVal s "link" = colVal r "link")) :=
  ⟨Or.inl rfl, remove_duplicates_key_spec _ "link" (Or.inl rfl)⟩

/-- C5: the code rejects the deduplication key `"id"` — `remove_duplicates`
raises `ValueError` for every strategy outside `["link", "title", "None"]`,
`"id"` included, although the CLI (`src/dl_parser/main.py`) offers `id` as a
valid strategy and `tests/dl_parser/test_utils.py::test_remove_duplicates`
calls `remove_duplicates(df, "id")` expecting a deduplicated frame. -/
theorem remove_duplicates_id_raises (df : List RowDF) :
    remove_duplicates df "id" =
      Except.error "Invalid strategy: id. Allowed strategies are ['link', 'title']" := rfl

/-- A Python value as manipulated by `flatten_dict` and built by
`recursive_field_dict`: XML text (a string or `None`), a nested dict
(association list in insertion order), or a list accumulated from repeated
sibling tags. -/
inductive Val where
  | prim (s : String)
  | vnull
  | dict (fields : List (String × Val))
  | vlist (elems : List Val)

/-- Python truthiness (`if v:`) of such a value: `None`, `""`, `\x7b\x7d` and
`[]` are falsy. -/
def truthy : Val → Bool
  | .prim s => s != ""
  | .vnull => false
  | .dict f => !f.isEmpty
  | .vlist l => !l.isEmpty

mutual

/-- Python `repr` of such a value (element of a stringified container). -/
def pyRepr : Val → String
  | .prim s => "'" ++ s ++ "'"
  | .vnull => "None"
  | .dict f => "\x7b" ++ pyReprFields f ++ "\x7d"
  | .vlist l => "[" ++ pyReprElems l ++ "]"

/-- `repr` of the `key: value` items of a dict, comma-separated. -/
def pyReprFields : List (String × Val) → String
  | [] => ""
  | [(k, v)] => "'" ++ k ++ "': " ++ pyRepr v
  | (k, v) :: rest => "'" ++ k ++ "': " ++ pyRepr v ++ ", " ++ pyReprFields rest

/-- `repr` of the elements of a list, comma-separated. -/
def pyReprElems : List Val → String
  | [] => ""
  | [v] => pyRepr v
  | v :: rest => pyRepr v ++ ", " ++ pyReprElems rest

end

/-- Python `str()` of such a value (as used by `str(item)` in
`_flatten_list` and `_flatten_dict_list`). -/
def pyStr : Val → String
  | .prim s => s
  | .vnull => "None"
  | .dict f => pyRepr (.dict f)
  | .vlist l => pyRepr (.vlist l)

/-- `isinstance(item, dict)`. -/
def isDictV : Val → Bool
  | .dict _ => true
  | _ => false

/-- The items of a value known to be a dict (`item.items()`); the non-dict
cases are unreachable at every use site, which is guarded by
`isinstance(_, dict)` checks. -/
def fieldsOf : Val → List (String × Val)
  | .dict f => f
  | _ => []

mutual

/-- `flatten_dict(d, parent_key, sep)` from `src/dl_parser/utils.py`,
returning the accumulated `items` list: nested dicts recurse with dotted
keys, lists go through `_flatten_list`, truthy scalars are kept as they are
and falsy scalars (`None`, `""`) are dropped. -/
def flatten_dict (d : List (String × Val)) (parent_key : String) (sep : String) :
    List (String × String) :=
  match d with
  | [] => []
  | (k, v) :: rest =>
    let new_key := if parent_key != "" then parent_key ++ sep ++ k else k
    (match v with
     | .dict f => flatten_dict f new_key sep
     | .vlist l => flatten_list l new_key sep
     | .prim s => if s != "" then [(new_key, s)] else []
     | .vnull => []) ++ flatten_dict rest parent_key sep
termination_by (sizeOf d, 0)
decreasing_by
  all_goals apply Prod.Lex.left
  all_goals (simp; try omega)

/-- `_flatten_list(lst, key, sep)`: an empty list contributes nothing; a
list of dicts goes through `_flatten_dict_list`; otherwise the truthy
elements are stringified and joined with `"_"` under `key`. -/
def flatten_list (lst : List Val) (key : String) (sep : String) :
    List (String × String) :=
  if lst.isEmpty then []
  else if lst.all isDictV then flatten_dict_list lst key sep
  else
    let values := (lst.filter truthy).map pyStr
    if values.isEmpty then [] else [(key, String.intercalate "_" values)]
termination_by (sizeOf lst, 2)
decreasing_by
  all_goals (apply Prod.Lex.right; omega)

/-- `_flatten_dict_list(lst, key, sep)`: if every dict has the single key of
the first dict, the truthy values are stringified and joined with `"_"` under
`key ++ sep ++ first_key`; otherwise each dict is flattened under the
index-suffixed key `key_<i>`. -/
def flatten_dict_list (lst : List Val) (key : String) (sep : String) :
    List (String × String) :=
  match fieldsOf (lst.headD Val.vnull) with
  | [(first_key, _)] =>
    if lst.all (fun item =>
        (fieldsOf item).length == 1 && ((fieldsOf item).lookup first_key).isSome) then
      let values := lst.filterMap (fun item =>
        let v := ((fieldsOf item).lookup first_key).getD Val.vnull
        if truthy v then some (pyStr v) else none)
      if values.isEmpty then []
      else [(key ++ sep ++ first_key, String.intercalate "_" values)]
    else flatten_numbered lst key sep 0
  | _ => flatten_numbered lst key sep 0
termination_by (sizeOf lst, 1)
decreasing_by
  all_goals (apply Prod.Lex.right; omega)

/-- The `for i, item in enumerate(lst)` loop of `_flatten_dict_list`:
each element flattened under `key_<i>`. -/
def flatten_numbered (lst : List Val) (key : String) (sep : String) (i : Nat) :
    List (String × String) :=
  match lst with
  | [] => []
  | item :: rest =>
    flatten_dict (fieldsOf item) (key ++ "_" ++ toString i) sep
      ++ flatten_numbered rest key sep (i + 1)
termination_by (sizeOf lst, 0)
decreasing_by
  all_goals apply Prod.Lex.left
  · cases item <;> simp [fieldsOf] <;> omega
  · simp; try omega

end

/-- A string of length zero is the empty string. -/
theorem eq_empty_of_length_zero (s : String) (h : s.length = 0) : s = "" := by
  cases s with
  | mk data =>
    cases data with
    | nil => rfl
    | cons c cs => simp [String.length] at h

/-- If a concatenation is empty, its first part is empty. -/
theorem left_empty_of_append_empty (v t : String) (h : v ++ t = "") : v = "" := by
  have hl : v.length + t.length = 0 := by rw [← String.length_append, h]; rfl
  exact eq_empty_of_length_zero v (by omega)

/-- The accumulator of `String.intercalate.go` is a prefix of its result. -/
theorem intercalate_go_prefix (s : String) :
    ∀ (as : List String) (acc : String),
      ∃ t, String.intercalate.go acc s as = acc ++ t := by
  intro as
  induction as with
  | nil => intro acc; exact ⟨"", (String.append_empty acc).symm⟩
  | cons a as ih =>
    intro acc
    rcases ih (acc ++ s ++ a) with ⟨t, ht⟩
    refine ⟨s ++ a ++ t, ?_⟩
    rw [String.intercalate.go, ht, String.append_assoc acc s a,
      String.append_assoc acc (s ++ a) t]

/-- Joining a list whose first element is non-empty gives a non-empty string. -/
theorem intercalate_cons_ne_empty (v : String) (vs : List String) (hv : v ≠ "") :
    String.intercalate "_" (v :: vs) ≠ "" := by
  rcases intercalate_go_prefix "_" vs v with ⟨t, ht⟩
  rw [String.intercalate, ht]
  intro hc
  exact hv (left_empty_of_append_empty v t hc)

/-- Python `str()` of a truthy value is never the empty string. -/
theorem pyStr_ne_empty_of_truthy (v : Val) (h : truthy v = true) : pyStr v ≠ "" := by
  cases v with
  | prim s =>
    simp [truthy] at h
    simpa [pyStr] using h
  | vnull => simp [truthy] at h
  | dict f =>
    have he : pyStr (Val.dict f) = "\x7b" ++ pyReprFields f ++ "\x7d" := by
      simp [pyStr, pyRepr]
    intro hc
    rw [he] at hc
    have h3 := congrArg String.length hc
    rw [String.length_append, String.length_append] at h3
    have h1 : ("\x7b" : String).length = 1 := rfl
    have h2 : ("\x7d" : String).length = 1 := rfl
    have h4 : ("" : String).length = 0 := rfl
    rw [h1, h2, h4] at h3
    omega
  | vlist l =>
    have he : pyStr (Val.vlist l) = "[" ++ pyReprElems l ++ "]" := by
      simp [pyStr, pyRepr]
    intro hc
    rw [he] at hc
    have h3 := congrArg String.length hc
    rw [String.length_append, String.length_append] at h3
    have h1 : ("[" : String).length = 1 := rfl
    have h2 : ("]" : String).length = 1 := rfl
    have h4 : ("" : String).length = 0 := rfl
    rw [h1, h2, h4] at h3
    omega

/-- Unfolding of `flatten_dict_list` when the first dict has exactly one key. -/
theorem flatten_dict_list_eq_same (lst : List Val) (key sep first_key : String) (snd : Val)
    (hfields : fieldsOf (lst.headD Val.vnull) = [(first_key, snd)]) :
    flatten_dict_list lst key sep =
      if (lst.all fun item =>
          (fieldsOf item).length == 1 && (List.lookup first_key (fieldsOf item)).isSome) = true then
        (if (List.filterMap (fun item =>
            let v := (List.lookup first_key (fieldsOf item)).getD Val.vnull
            if truthy v = true then some (pyStr v) else none) lst).isEmpty = true then []
        else [(key ++ sep ++ first_key, String.intercalate "_" (List.filterMap (fun item =>
            let v := (List.lookup first_key (fieldsOf item)).getD Val.vnull
            if truthy v = true then some (pyStr v) else none) lst))])
      else flatten_numbered lst key sep 0 := by
  rw [flatten_dict_list.eq_1, hfields]

/-- Unfolding of `flatten_dict_list` when the first dict does not have exactly
one key. -/
theorem flatten_dict_list_eq_other (lst : List Val) (key sep : String)
    (h : ∀ fk s, fieldsOf (lst.headD Val.vnull) = [(fk, s)] → False) :
    flatten_dict_list lst key sep = flatten_numbered lst key sep 0 := by
  rw [flatten_dict_list.eq_1]
  cases hf : fieldsOf (lst.headD Val.vnull) with
  | nil => rfl
  | cons a rest =>
    cases rest with
    | nil =>
      rcases a with ⟨fk, sv⟩
      exact (h fk sv hf).elim
    | cons b rest2 => rfl

/-- Unfolding of `flatten_list` in its simple-values branch. -/
theorem flatten_list_eq_values (lst : List Val) (key sep : String)
    (hempty : ¬lst.isEmpty = true) (hall : ¬lst.all isDictV = true) :
    flatten_list lst key sep =
      if (List.map pyStr (List.filter truthy lst)).isEmpty = true then []
      else [(key, String.intercalate "_" (List.map pyStr (List.filter truthy lst)))] := by
  rw [flatten_list, if_neg hempty, if_neg hall]

/-- The joined `values` string of the simple-list branch is non-empty when
`values` is non-empty. -/
theorem map_filter_intercalate_ne_empty (lst : List Val)
    (h : ¬(List.map pyStr (List.filter truthy lst)).isEmpty = true) :
    String.intercalate "_" (List.map pyStr (List.filter truthy lst)) ≠ "" := by
  match hv : List.map pyStr (List.filter truthy lst) with
  | [] => rw [hv] at h; simp at h
  | v :: vs =>
    have hvmem : v ∈ List.map pyStr (List.filter truthy lst) := by
      rw [hv]; exact List.mem_cons_self v vs
    rcases List.mem_map.mp hvmem with ⟨x, hx, hxv⟩
    have hxt : truthy x = true := (List.mem_filter.mp hx).2
    exact intercalate_cons_ne_empty v vs (hxv ▸ pyStr_ne_empty_of_truthy x hxt)

/-- The joined `values` string of the same-single-key branch is non-empty when
`values` is non-empty. -/
theorem filterMap_intercalate_ne_empty (lst : List Val) (first_key : String)
    (h : ¬(List.filterMap (fun item =>
        let v := (List.lookup first_key (fieldsOf item)).getD Val.vnull
        if truthy v = true then some (pyStr v) else none) lst).isEmpty = true) :
    String.intercalate "_" (List.filterMap (fun item =>
        let v := (List.lookup first_key (fieldsOf item)).getD Val.vnull
        if truthy v = true then some (pyStr v) else none) lst) ≠ "" := by
  match hv : List.filterMap (fun item =>
      let v := (List.lookup first_key (fieldsOf item)).getD Val.vnull
      if truthy v = true then some (pyStr v) else none) lst with
  | [] => rw [hv] at h; simp at h
  | v :: vs =>
    have hvmem : v ∈ List.filterMap (fun item =>
        let v := (List.lookup first_key (fieldsOf item)).getD Val.vnull
        if truthy v = true then some (pyStr v) else none) lst := by
      rw [hv]; exact List.mem_cons_self v vs
    rcases List.mem_filterMap.mp hvmem with ⟨x, _, hxv⟩
    have hx2 : truthy ((List.lookup first_key (fieldsOf x)).getD Val.vnull) = true ∧
        pyStr ((List.lookup first_key (fieldsOf x)).getD Val.vnull) = v := by
      by_cases hxt : truthy ((List.lookup first_key (fieldsOf x)).getD Val.vnull) = true
      · exact ⟨hxt, by simpa [hxt] using hxv⟩
      · exact absurd hxv (by simp [hxt])
    exact intercalate_cons_ne_empty v vs (hx2.2 ▸ pyStr_ne_empty_of_truthy _ hx2.1)

/-- C8: no key of `flatten_dict`'s output maps to an empty value — falsy
values (`None`, `""`) are dropped during flattening and joined values are
built from truthy parts only, so every value present in the output is a
non-empty string. -/
theorem flatten_dict_values_ne_empty :
    ∀ (d : List (String × Val)) (parent_key sep : String),
      ∀ kv ∈ flatten_dict d parent_key sep, kv.2 ≠ "" := by
  refine flatten_dict.induct
    (fun d pk sep => ∀ kv ∈ flatten_dict d pk sep, kv.2 ≠ "")
    (fun l k sep => ∀ kv ∈ flatten_list l k sep, kv.2 ≠ "")
    (fun l k sep => ∀ kv ∈ flatten_dict_list l k sep, kv.2 ≠ "")
    (fun l k sep i => ∀ kv ∈ flatten_numbered l k sep i, kv.2 ≠ "")
    ?_ ?_ ?_ ?_ ?_ ?_ ?_ ?_ ?_ ?_ ?_ ?_
  · intro pk sep kv hkv
    simp [flatten_dict] at hkv
  · intro pk sep k v rest nk hmatch ihrest kv hkv
    cases v with
    | dict f =>
      simp only [flatten_dict] at hkv
      rcases List.mem_append.mp hkv with h | h
      · exact hmatch kv h
      · exact ihrest kv h
    | vlist l =>
      simp only [flatten_dict] at hkv
      rcases List.mem_append.mp hkv with h | h
      · exact hmatch kv h
      · exact ihrest kv h
    | prim s =>
      simp only [flatten_dict] at hkv
      rcases List.mem_append.mp hkv with h | h
      · by_cases hs : (s != "") = true
        · rw [if_pos hs] at h
          simp only [List.mem_singleton] at h
          subst h
          simpa using hs
        · rw [if_neg hs] at h
          simp at h
      · exact ihrest kv h
    | vnull =>
      simp only [flatten_dict] at hkv
      rcases List.mem_append.mp hkv with h | h
      · simp at h
      · exact ihrest kv h
  · intro lst key sep hempty kv hkv
    rw [flatten_list, if_pos hempty] at hkv
    simp at hkv
  · intro lst key sep hempty hall ih kv hkv
    rw [flatten_list, if_neg hempty, if_pos hall] at hkv
    exact ih kv hkv
  · intro lst key sep hempty hall values hvempty kv hkv
    rw [flatten_list_eq_values lst key sep hempty hall] at hkv
    by_cases hc : (List.map pyStr (List.filter truthy lst)).isEmpty = true
    · rw [if_pos hc] at hkv
      simp at hkv
    · rw [if_neg hc] at hkv
      simp only [List.mem_singleton] at hkv
      subst hkv
      exact map_filter_intercalate_ne_empty lst hc
  · intro lst key sep hempty hall values hvne kv hkv
    rw [flatten_list_eq_values lst key sep hempty hall] at hkv
    split at hkv
    · simp at hkv
    · rename_i hvne2
      simp only [List.mem_singleton] at hkv
      subst hkv
      exact map_filter_intercalate_ne_empty lst hvne2
  · intro lst key sep first_key snd hfields hall values hvempty kv hkv
    rw [flatten_dict_list_eq_same lst key sep first_key snd hfields, if_pos hall] at hkv
    split at hkv
    · simp at hkv
    · rename_i hvne2
      simp only [List.mem_singleton] at hkv
      subst hkv
      exact filterMap_intercalate_ne_empty lst first_key hvne2
  · intro lst key sep first_key snd hfields hall values hvne kv hkv
    rw [flatten_dict_list_eq_same lst key sep first_key snd hfields, if_pos hall] at hkv
    split at hkv
    · simp at hkv
    · rename_i hvne2
      simp only [List.mem_singleton] at hkv
      subst hkv
      exact filterMap_intercalate_ne_empty lst first_key hvne2
  · intro lst key sep first_key snd hfields hall ih kv hkv
    rw [flatten_dict_list_eq_same lst key sep first_key snd hfields, if_neg hall] at hkv
    exact ih kv hkv
  · intro lst key sep hnomatch ih kv hkv
    rw [flatten_dict_list_eq_other lst key sep hnomatch] at hkv
    exact ih kv hkv
  · intro key sep i kv hkv
    simp [flatten_numbered] at hkv
  · intro key sep i item rest ihd ihn kv hkv
    rw [flatten_numbered] at hkv
    rcases List.mem_append.mp hkv with h | h
    · exact ihd kv h
    · exact ihn kv h

/-- `p ++ q` is non-empty when `q` is non-empty. -/
theorem append_right_ne_empty (p q : String) (hq : q ≠ "") : p ++ q ≠ "" := by
  intro h
  have hl : p.length + q.length = 0 := by rw [← String.length_append, h]; rfl
  exact hq (eq_empty_of_length_zero q (by omega))

/-- Keeping exactly the non-empty strings. -/
theorem filterMap_if_eq_filter (vs : List String) :
    List.filterMap (fun s => if (s != "") = true then some s else none) vs
      = List.filter (fun s => s != "") vs := by
  induction vs with
  | nil => rfl
  | cons v vs ih =>
    rw [List.filterMap_cons, List.filter_cons]
    by_cases h : (v != "") = true
    · rw [if_pos h, if_pos h, ih]
    · rw [if_neg h, if_neg h, ih]

/-- The same-single-key branch of `_flatten_dict_list`, computed in full:
the truthy element values joined with `"_"` under `p.kk`, or no entry at all
when no truthy value remains. -/
theorem flatten_same_single_key (p kk : String) (vs : List String) :
    flatten_dict [(p, Val.vlist (vs.map fun s => Val.dict [(kk, Val.prim s)]))] "" "."
      = if (vs.filter (fun s => s != "")).isEmpty = true then []
        else [(p ++ "." ++ kk, String.intercalate "_" (vs.filter (fun s => s != "")))] := by
  cases vs with
  | nil => simp [flatten_dict, flatten_list]
  | cons v vs' =>
    rw [flatten_dict.eq_3, flatten_dict.eq_1, List.append_nil, if_neg (by decide)]
    have hLne : ¬(((v :: vs').map fun s => Val.dict [(kk, Val.prim s)]).isEmpty = true) := by
      simp
    have hall : ((v :: vs').map fun s => Val.dict [(kk, Val.prim s)]).all isDictV = true := by
      simp [List.all_map, isDictV, Function.comp]
    rw [flatten_list, if_neg hLne, if_pos hall]
    have hhead : fieldsOf (((v :: vs').map fun s => Val.dict [(kk, Val.prim s)]).headD Val.vnull)
        = [(kk, Val.prim v)] := by
      simp [fieldsOf]
    rw [flatten_dict_list_eq_same _ _ _ _ _ hhead]
    have hall2 : (((v :: vs').map fun s => Val.dict [(kk, Val.prim s)]).all fun item =>
        (fieldsOf item).length == 1 && (List.lookup kk (fieldsOf item)).isSome) = true := by
      simp [List.all_map, fieldsOf, List.lookup, Function.comp]
    rw [if_pos hall2]
    have hvals : List.filterMap (fun item =>
        let v := (List.lookup kk (fieldsOf item)).getD Val.vnull
        if truthy v = true then some (pyStr v) else none)
        ((v :: vs').map fun s => Val.dict [(kk, Val.prim s)])
        = List.filter (fun s => s != "") (v :: vs') := by
      rw [List.filterMap_map]
      rw [← filterMap_if_eq_filter (v :: vs')]
      congr 1
      funext s
      simp [fieldsOf, List.lookup, truthy, pyStr]
    rw [hvals]

/-- When every element value is falsy the same-single-key branch produces no
entry at all. -/
theorem flatten_same_single_key_all_falsy (p kk : String) (vs : List String)
    (h : ∀ s ∈ vs, s = "") :
    flatten_dict [(p, Val.vlist (vs.map fun s => Val.dict [(kk, Val.prim s)]))] "" "." = [] := by
  rw [flatten_same_single_key]
  have hfil : List.filter (fun s => s != "") vs = [] := by
    refine List.filter_eq_nil_iff.mpr ?_
    intro a ha
    simp [h a ha]
  rw [if_pos (by rw [hfil]; rfl)]

/-- The numbered fallback of `_flatten_dict_list`, extensionally: the `i`-th
element is flattened under the index-suffixed key `key_<i>`. -/
theorem flatten_numbered_enum : ∀ (lst : List Val) (key sep : String) (i : Nat),
    flatten_numbered lst key sep i
      = ((lst.enumFrom i).map (fun iv =>
          flatten_dict (fieldsOf iv.2) (key ++ "_" ++ toString iv.1) sep)).flatten := by
  intro lst
  induction lst with
  | nil =>
    intro key sep i
    rw [flatten_numbered]
    simp [List.enumFrom]
  | cons x xs ih =>
    intro key sep i
    rw [flatten_numbered, ih]
    simp [List.enumFrom]

/-- For every non-empty list of dicts that fails the same-single-key guard
(heterogeneous keys or multi-key dicts), each element is flattened under the
index-suffixed key `p_<i>`. -/
theorem flatten_heterogeneous (p : String) (lst : List Val)
    (hne : lst ≠ []) (hall : lst.all isDictV = true)
    (hhet : ∀ k v, fieldsOf (lst.headD Val.vnull) = [(k, v)] →
      ¬(lst.all (fun item =>
          (fieldsOf item).length == 1 && (List.lookup k (fieldsOf item)).isSome) = true)) :
    flatten_dict [(p, Val.vlist lst)] "" "."
      = ((lst.enum).map (fun iv =>
          flatten_dict (fieldsOf iv.2) (p ++ "_" ++ toString iv.1) ".")).flatten := by
  rw [flatten_dict.eq_3, flatten_dict.eq_1, List.append_nil, if_neg (by decide)]
  have hempty : ¬(lst.isEmpty = true) := by
    cases lst with
    | nil => exact absurd rfl hne
    | cons a as => simp
  rw [flatten_list, if_neg hempty, if_pos hall]
  have hnum : flatten_dict_list lst p "." = flatten_numbered lst p "." 0 := by
    cases hf : fieldsOf (lst.headD Val.vnull) with
    | nil =>
      refine flatten_dict_list_eq_other lst p "." ?_
      intro fk sv hcontra
      rw [hf] at hcontra
      simp at hcontra
    | cons a rest =>
      cases rest with
      | nil =>
        rcases a with ⟨fk, v⟩
        rw [flatten_dict_list_eq_same lst p "." fk v hf, if_neg (hhet fk v hf)]
      | cons b rest2 =>
        refine flatten_dict_list_eq_other lst p "." ?_
        intro fk sv hcontra
        rw [hf] at hcontra
        simp at hcontra
  rw [hnum, flatten_numbered_enum]
  rfl

/-- C2 (amended): for every list of single-key dicts sharing the same inner
key `kk` under parent `p`, `flatten_dict` produces exactly one entry keyed
`p.kk` whose value joins the truthy (non-empty) element values with `"_"` —
falsy element values are dropped before joining, and when every element value
is falsy no entry is produced at all; for every non-empty list of
heterogeneous dicts (not all sharing one single key) each element is instead
flattened under the index-suffixed key `p_<i>`. -/
theorem flatten_dict_list_policy :
    (∀ (p kk : String) (vs : List String),
      flatten_dict [(p, Val.vlist (vs.map fun s => Val.dict [(kk, Val.prim s)]))] "" "."
        = if (vs.filter (fun s => s != "")).isEmpty = true then []
          else [(p ++ "." ++ kk, String.intercalate "_" (vs.filter (fun s => s != "")))])
    ∧ (∀ (p kk : String) (vs : List String), (∀ s ∈ vs, s = "") →
      flatten_dict [(p, Val.vlist (vs.map fun s => Val.dict [(kk, Val.prim s)]))] "" "." = [])
    ∧ (∀ (p : String) (lst : List Val), lst ≠ [] → lst.all isDictV = true →
      (∀ k v, fieldsOf (lst.headD Val.vnull) = [(k, v)] →
        ¬(lst.all (fun item =>
            (fieldsOf item).length == 1 && (List.lookup k (fieldsOf item)).isSome) = true)) →
      flatten_dict [(p, Val.vlist lst)] "" "."
        = ((lst.enum).map (fun iv =>
            flatten_dict (fieldsOf iv.2) (p ++ "_" ++ toString iv.1) ".")).flatten) :=
  ⟨flatten_same_single_key, flatten_same_single_key_all_falsy, flatten_heterogeneous⟩

/-- Witness for C2: values `["a", "b"]` under `p`/`k`, the all-falsy list
`[""]`, and a heterogeneous two-key list. -/
theorem flatten_dict_list_policy_witness :
    (flatten_dict [("p", Val.vlist (["a", "b"].map fun s => Val.dict [("k", Val.prim s)]))] "" "."
        = if ((["a", "b"].filter (fun s => s != ""))).isEmpty = true then []
          else [("p" ++ "." ++ "k", String.intercalate "_" (["a", "b"].filter (fun s => s != "")))])
    ∧ ((∀ s ∈ [""], s = "") ∧
      flatten_dict [("p", Val.vlist (([""]).map fun s => Val.dict [("k", Val.prim s)]))] "" "." = [])
    ∧ (([Val.dict [("k1", Val.prim "a")], Val.dict [("k2", Val.prim "b")]] : List Val) ≠ [] ∧
      flatten_dict
          [("p", Val.vlist [Val.dict [("k1", Val.prim "a")], Val.dict [("k2", Val.prim "b")]])] "" "."
        = ((([Val.dict [("k1", Val.prim "a")], Val.dict [("k2", Val.prim "b")]] : List Val).enum).map
            (fun iv => flatten_dict (fieldsOf iv.2) ("p" ++ "_" ++ toString iv.1) ".")).flatten) := by
  refine ⟨flatten_dict_list_policy.1 "p" "k" ["a", "b"], ⟨by decide, ?_⟩, ⟨by simp, ?_⟩⟩
  · exact flatten_dict_list_policy.2.1 "p" "k" [""] (by decide)
  · refine flatten_dict_list_policy.2.2 "p"
      [Val.dict [("k1", Val.prim "a")], Val.dict [("k2", Val.prim "b")]] (by simp) (by decide) ?_
    intro k v h
    simp only [List.headD, fieldsOf, List.cons.injEq, Prod.mk.injEq, and_true] at h
    rcases h with ⟨hk, hv⟩
    subst hk
    decide

/-- C2 counterexample: with element values `["", "b"]` the code drops the
falsy value before joining and yields `"b"`, not the plain join `"_b"` of all
element values that the claim as stated would require. -/
theorem flatten_same_single_key_counterexample :
    flatten_dict [("p", Val.vlist [Val.dict [("k", Val.prim "")], Val.dict [("k", Val.prim "b")]])]
        "" "." = [("p.k", "b")] ∧ ("b" : String) ≠ "_b" := by
  constructor
  · simp [flatten_dict, flatten_list, flatten_dict_list, fieldsOf, isDictV, truthy, pyStr]
    decide
  · decide

/-- Witness for C8 at a concrete one-entry dict. -/
theorem flatten_dict_values_ne_empty_witness :
    ("a", "x") ∈ flatten_dict [("a", Val.prim "x")] "" "."
      ∧ (("a", "x") : String × String).2 ≠ "" :=
  ⟨by simp [flatten_dict],
   flatten_dict_values_ne_empty [("a", Val.prim "x")] "" "." ("a", "x") (by simp [flatten_dict])⟩

/-- A row of a batch result: a Python dict mapping column name to cell
value, as produced by the extractor for one ATOM entry. -/
abbrev RowP := List (String × String)

/-- Insert the columns `cs` into `acc`, keeping first-appearance order and
skipping columns already present. -/
def insertCols (acc : List String) (cs : List String) : List String :=
  cs.foldl (fun a c => if c ∈ a then a else a ++ [c]) acc

/-- A polars `DataFrame`: named columns plus rows; a row lacking one of the
frame's columns has a null cell there (`List.lookup` returns `none`). -/
structure Frame where
  cols : List String
  rows : List RowP

/-- `pl.DataFrame(results)` built from a list of dicts: the columns are the
union of the dict keys in order of first appearance. -/
def frameOfDicts (rows : List RowP) : Frame :=
  ⟨rows.foldl (fun acc r => insertCols acc (r.map Prod.fst)) [], rows⟩

/-- `pl.concat(frames, how="diagonal")`: the column set is the union of the
frames' column sets (first-appearance order) and every row of every frame is
kept. -/
def concatDiagonal (fs : List Frame) : Frame :=
  ⟨fs.foldl (fun acc f => insertCols acc f.cols) [], (fs.map Frame.rows).flatten⟩

/-- `_process_single_file(path)` from `src/dl_parser/utils.py`: `parse`
abstracts `get_atom_data` + `get_data_list`, returning `none` when either
raises; a successful parse that yields zero rows is also reported as `none`. -/
def processSingleFile {α : Type} (parse : α → Option (List RowP)) (path : α) :
    Option (List RowP) :=
  match parse path with
  | some data_list => if data_list.length > 0 then some data_list else none
  | none => none

/-- `_process_batch(paths_batch, ...)`: gather per-file results in submission
order, record the failed paths, and spill the batch's rows as one frame when
any row was produced.  Returns (record count, failed paths, optional spill). -/
def processBatch {α : Type} (parse : α → Option (List RowP)) (paths_batch : List α) :
    Nat × List α × Option Frame :=
  let results := (paths_batch.map (fun p => (processSingleFile parse p).getD [])).flatten
  let failed_paths := paths_batch.filter (fun p => (processSingleFile parse p).isNone)
  if results.length > 0 then (results.length, failed_paths, some (frameOfDicts results))
  else (0, failed_paths, none)

/-- The `range(0, len(paths), batch_size)` slicing of `get_concat_df` with
`batch_size = 100`. -/
def chunked {α : Type} (l : List α) : List (List α) :=
  if l.isEmpty then [] else l.take 100 :: chunked (l.drop 100)
termination_by l.length
decreasing_by
  simp only [List.length_drop]
  cases l with
  | nil => simp at *
  | cons a as => simp; omega

/-- `get_concat_df(paths, ...)`: process the paths in batches of 100, sum the
per-batch record counts, raise when the total is zero, and otherwise combine
the spill files diagonally. -/
def get_concat_df {α : Type} (parse : α → Option (List RowP)) (paths : List α) :
    Except String Frame :=
  let processed := (chunked paths).map (fun b => processBatch parse b)
  let total_records : Nat := (processed.map (fun r => r.1)).sum
  if total_records = 0 then Except.error "No files were successfully processed"
  else Except.ok (concatDiagonal (processed.filterMap (fun r => r.2.2)))

/-- Number of rows a single document contributes to its batch. -/
def fileRowCount {α : Type} (parse : α → Option (List RowP)) (p : α) : Nat :=
  ((processSingleFile parse p).getD []).length

/-- A batch's record count is the sum of its documents' row counts. -/
theorem processBatch_count {α : Type} (parse : α → Option (List RowP)) (b : List α) :
    (processBatch parse b).1 = (b.map (fileRowCount parse)).sum := by
  have hres : ((b.map (fun p => (processSingleFile parse p).getD [])).flatten).length
      = (b.map (fileRowCount parse)).sum := by
    rw [List.length_flatten, List.map_map]
    rfl
  unfold processBatch
  by_cases h : ((b.map (fun p => (processSingleFile parse p).getD [])).flatten).length > 0
  · rw [if_pos h]
    exact hres
  · rw [if_neg h]
    omega

/-- The failed paths of a batch are exactly those whose processing signal is
`none`. -/
theorem processBatch_failed {α : Type} (parse : α → Option (List RowP)) (b : List α) :
    (processBatch parse b).2.1 = b.filter (fun p => (processSingleFile parse p).isNone) := by
  unfold processBatch
  by_cases h : ((b.map (fun p => (processSingleFile parse p).getD [])).flatten).length > 0
  · rw [if_pos h]
  · rw [if_neg h]

/-- Batching with `range(0, len, 100)` partitions the path list. -/
theorem chunked_flatten {α : Type} : ∀ (n : Nat) (l : List α), l.length ≤ n →
    (chunked l).flatten = l := by
  intro n
  induction n with
  | zero =>
    intro l hl
    have : l = [] := by
      cases l with
      | nil => rfl
      | cons a as => simp at hl
    subst this
    rw [chunked]
    simp
  | succ n ih =>
    intro l hl
    rw [chunked]
    by_cases he : l.isEmpty
    · rw [if_pos he]
      have : l = [] := by
        cases l with
        | nil => rfl
        | cons a as => simp at he
      simp [this]
    · rw [if_neg he]
      rw [List.flatten_cons]
      rw [ih (l.drop 100) (by rw [List.length_drop]; omega)]
      exact List.take_append_drop 100 l

/-- The cumulative record count over all batches equals the sum of the
per-document row counts. -/
theorem get_concat_df_total {α : Type} (parse : α → Option (List RowP)) (paths : List α) :
    ((((chunked paths).map (fun b => processBatch parse b)).map (fun r => r.1)).sum : Nat)
      = (paths.map (fileRowCount parse)).sum := by
  rw [List.map_map]
  have h1 : ((chunked paths).map (fun b => (processBatch parse b).1))
      = (chunked paths).map (fun b => (b.map (fileRowCount parse)).sum) := by
    simp only [processBatch_count]
  rw [show ((fun r => r.1) ∘ fun b => processBatch parse b) = fun b => (processBatch parse b).1 from rfl, h1]
  have h2 : ∀ (L : List (List α)),
      (L.map (fun b => (b.map (fileRowCount parse)).sum)).sum
        = (L.flatten.map (fileRowCount parse)).sum := by
    intro L
    induction L with
    | nil => simp
    | cons b bs ih => simp [ih]
  rw [h2, chunked_flatten (paths.length) paths le_rfl]

/-- `get_concat_df` unfolded. -/
theorem get_concat_df_eq {α : Type} (parse : α → Option (List RowP)) (paths : List α) :
    get_concat_df parse paths =
      if ((((chunked paths).map (fun b => processBatch parse b)).map (fun r => r.1)).sum : Nat) = 0
      then Except.error "No files were successfully processed"
      else Except.ok (concatDiagonal
        (((chunked paths).map (fun b => processBatch parse b)).filterMap (fun r => r.2.2))) := rfl

/-- Zero rows over the whole run raises. -/
theorem get_concat_df_error_of_sum_zero {α : Type} (parse : α → Option (List RowP))
    (paths : List α) (h : (paths.map (fileRowCount parse)).sum = 0) :
    get_concat_df parse paths = Except.error "No files were successfully processed" := by
  rw [get_concat_df_eq, if_pos (by rw [get_concat_df_total]; exact h)]

/-- At least one row over the whole run yields a combined frame. -/
theorem get_concat_df_ok_of_sum_ne_zero {α : Type} (parse : α → Option (List RowP))
    (paths : List α) (h : (paths.map (fileRowCount parse)).sum ≠ 0) :
    ∃ fr, get_concat_df parse paths = Except.ok fr :=
  ⟨concatDiagonal (((chunked paths).map (fun b => processBatch parse b)).filterMap (fun r => r.2.2)),
   by rw [get_concat_df_eq, if_neg (by rw [get_concat_df_total]; exact h)]⟩

/-- C3: `get_concat_df` raises exactly when the cumulative row count over all
batches is zero; when at least one row was produced anywhere it returns a
combined frame instead. -/
theorem get_concat_df_zero_total_raises {α : Type} (parse : α → Option (List RowP))
    (paths : List α) :
    ((paths.map (fileRowCount parse)).sum = 0 →
      get_concat_df parse paths = Except.error "No files were successfully processed")
    ∧ ((paths.map (fileRowCount parse)).sum ≠ 0 →
      ∃ fr, get_concat_df parse paths = Except.ok fr) :=
  ⟨get_concat_df_error_of_sum_zero parse paths, get_concat_df_ok_of_sum_ne_zero parse paths⟩

/-- Witness for C3: a run where every document fails raises, and a run with
one one-row document succeeds. -/
theorem get_concat_df_zero_total_raises_witness :
    (((["d"].map (fileRowCount (fun _ : String => (none : Option (List RowP))))).sum = 0) ∧
      get_concat_df (fun _ : String => (none : Option (List RowP))) ["d"]
        = Except.error "No files were successfully processed")
    ∧ (((["d"].map (fileRowCount (fun _ : String => some [[("a", "1")]]))).sum ≠ 0) ∧
      ∃ fr, get_concat_df (fun _ : String => some [[("a", "1")]]) ["d"] = Except.ok fr) :=
  ⟨⟨by decide,
    (get_concat_df_zero_total_raises (fun _ : String => none) ["d"]).1 (by decide)⟩,
   ⟨by decide,
    (get_concat_df_zero_total_raises (fun _ : String => some [[("a", "1")]]) ["d"]).2 (by decide)⟩⟩

/-- C9: a document that parses to zero rows gives the same `none` signal as a
parse failure (and only those two cases give `none`); such a document is
listed among its batch's failed paths; and a run over only valid-but-empty
documents accumulates a zero total and raises the total-extraction error. -/
theorem empty_document_counts_as_failed {α : Type} :
    (∀ (parse : α → Option (List RowP)) (p : α),
      processSingleFile parse p = none ↔ (parse p = none ∨ parse p = some []))
    ∧ (∀ (parse : α → Option (List RowP)) (batch : List α) (p : α),
      p ∈ batch → parse p = some [] → p ∈ (processBatch parse batch).2.1)
    ∧ (∀ (parse : α → Option (List RowP)) (paths : List α),
      (∀ p ∈ paths, parse p = some []) →
      get_concat_df parse paths = Except.error "No files were successfully processed") := by
  have hiff : ∀ (parse : α → Option (List RowP)) (p : α),
      processSingleFile parse p = none ↔ (parse p = none ∨ parse p = some []) := by
    intro parse p
    cases hp : parse p with
    | none => simp [processSingleFile, hp]
    | some l =>
      cases l with
      | nil => simp [processSingleFile, hp]
      | cons r rs => simp [processSingleFile, hp]
  refine ⟨hiff, ?_, ?_⟩
  · intro parse batch p hmem hempty
    rw [processBatch_failed]
    refine List.mem_filter.mpr ⟨hmem, ?_⟩
    have : processSingleFile parse p = none := (hiff parse p).mpr (Or.inr hempty)
    simp [this]
  · intro parse paths hall
    apply get_concat_df_error_of_sum_zero
    apply List.sum_eq_zero
    intro x hx
    rcases List.mem_map.mp hx with ⟨p, hp, hxp⟩
    have : processSingleFile parse p = none := (hiff parse p).mpr (Or.inr (hall p hp))
    rw [← hxp]
    simp [fileRowCount, this]

/-- Witness for C9 on a single valid-but-empty document. -/
theorem empty_document_counts_as_failed_witness :
    (processSingleFile (fun _ : String => some ([] : List RowP)) "d" = none ↔
      ((fun _ : String => some ([] : List RowP)) "d" = none ∨
       (fun _ : String => some ([] : List RowP)) "d" = some []))
    ∧ ("d" ∈ ["d"] ∧
      "d" ∈ (processBatch (fun _ : String => some ([] : List RowP)) ["d"]).2.1)
    ∧ ((∀ p ∈ ["d"], (fun _ : String => some ([] : List RowP)) p = some []) ∧
      get_concat_df (fun _ : String => some ([] : List RowP)) ["d"]
        = Except.error "No files were successfully processed") :=
  ⟨empty_document_counts_as_failed.1 (fun _ => some []) "d",
   ⟨by decide,
    empty_document_counts_as_failed.2.1 (fun _ => some []) ["d"] "d" (by decide) rfl⟩,
   ⟨by decide,
    empty_document_counts_as_failed.2.2 (fun _ => some []) ["d"] (by intro p hp; rfl)⟩⟩

/-- Membership in the column-insertion fold. -/
theorem mem_insertCols (c : String) : ∀ (cs acc : List String),
    c ∈ insertCols acc cs ↔ c ∈ acc ∨ c ∈ cs := by
  intro cs
  induction cs with
  | nil => intro acc; simp [insertCols]
  | cons d ds ih =>
    intro acc
    unfold insertCols at ih ⊢
    rw [List.foldl_cons]
    by_cases hd : d ∈ acc
    · rw [if_pos hd, ih]
      constructor
      · rintro (h | h)
        · exact Or.inl h
        · exact Or.inr (List.mem_cons_of_mem _ h)
      · rintro (h | h)
        · exact Or.inl h
        · rcases List.mem_cons.mp h with rfl | h
          · exact Or.inl hd
          · exact Or.inr h
    · rw [if_neg hd, ih]
      constructor
      · rintro (h | h)
        · rcases List.mem_append.mp h with h | h
          · exact Or.inl h
          · simp at h
            subst h
            exact Or.inr (List.mem_cons_self _ _)
        · exact Or.inr (List.mem_cons_of_mem _ h)
      · rintro (h | h)
        · exact Or.inl (List.mem_append.mpr (Or.inl h))
        · rcases List.mem_cons.mp h with rfl | h
          · exact Or.inl (List.mem_append.mpr (Or.inr (by simp)))
          · exact Or.inr h

/-- Membership in the union of the frames' column lists. -/
theorem mem_foldl_insertCols (c : String) : ∀ (fs : List Frame) (acc : List String),
    c ∈ fs.foldl (fun acc f => insertCols acc f.cols) acc ↔ c ∈ acc ∨ ∃ f ∈ fs, c ∈ f.cols := by
  intro fs
  induction fs with
  | nil => intro acc; simp
  | cons f fs ih =>
    intro acc
    rw [List.foldl_cons, ih]
    rw [mem_insertCols]
    constructor
    · rintro ((h | h) | ⟨g, hg, hc⟩)
      · exact Or.inl h
      · exact Or.inr ⟨f, List.mem_cons_self _ _, h⟩
      · exact Or.inr ⟨g, List.mem_cons_of_mem _ hg, hc⟩
    · rintro (h | ⟨g, hg, hc⟩)
      · exact Or.inl (Or.inl h)
      · rcases List.mem_cons.mp hg with rfl | hg
        · exact Or.inl (Or.inr hc)
        · exact Or.inr ⟨g, hg, hc⟩

/-- A row whose keys all lie in `cols` has a null cell at any column outside
`cols`. -/
theorem lookup_none_of_keys_subset (r : RowP) (cols : List String) (c : String)
    (hkeys : ∀ kv ∈ r, kv.1 ∈ cols) (hc : c ∉ cols) : r.lookup c = none := by
  induction r with
  | nil => rfl
  | cons kv rest ih =>
    have hk : kv.1 ∈ cols := hkeys kv (List.mem_cons_self _ _)
    have hne : (c == kv.1) = false := by
      refine beq_eq_false_iff_ne.mpr ?_
      intro hcc
      exact hc (hcc ▸ hk)
    cases kv with
    | mk k v =>
      rw [List.lookup]
      simp only at hne
      rw [hne]
      exact ih (fun kv hkv => hkeys kv (List.mem_cons_of_mem _ hkv))

/-- C6: diagonal concatenation of spill frames keeps every row, its column
set is exactly the union of the per-frame column sets, and a row coming from
a frame lacking a column has a null cell there. -/
theorem concatDiagonal_schema_union (fs : List Frame) :
    ((concatDiagonal fs).rows = (fs.map Frame.rows).flatten)
    ∧ (∀ c, c ∈ (concatDiagonal fs).cols ↔ ∃ f ∈ fs, c ∈ f.cols)
    ∧ (∀ f ∈ fs, ∀ r ∈ f.rows, (∀ kv ∈ r, kv.1 ∈ f.cols) →
        ∀ c, c ∈ (concatDiagonal fs).cols → c ∉ f.cols → r.lookup c = none) := by
  refine ⟨rfl, ?_, ?_⟩
  · intro c
    rw [show (concatDiagonal fs).cols = fs.foldl (fun acc f => insertCols acc f.cols) [] from rfl]
    rw [mem_foldl_insertCols]
    simp
  · intro f hf r hr hkeys c hcu hcf
    exact lookup_none_of_keys_subset r f.cols c hkeys hcf

/-- Witness for C6 on two one-column frames with different columns. -/
theorem concatDiagonal_schema_union_witness :
    ((concatDiagonal [⟨["a"], [[("a", "1")]]⟩, ⟨["b"], [[("b", "2")]]⟩]).rows
        = ([⟨["a"], [[("a", "1")]]⟩, ⟨["b"], [[("b", "2")]]⟩].map Frame.rows).flatten)
    ∧ ("b" ∈ (concatDiagonal [⟨["a"], [[("a", "1")]]⟩, ⟨["b"], [[("b", "2")]]⟩]).cols)
    ∧ ((⟨["a"], [[("a", "1")]]⟩ : Frame) ∈ [⟨["a"], [[("a", "1")]]⟩, ⟨["b"], [[("b", "2")]]⟩]
        ∧ (List.lookup "b" [("a", "1")] : Option String) = none) := by
  have hmain := concatDiagonal_schema_union [⟨["a"], [[("a", "1")]]⟩, ⟨["b"], [[("b", "2")]]⟩]
  have hb : "b" ∈ (concatDiagonal [⟨["a"], [[("a", "1")]]⟩, ⟨["b"], [[("b", "2")]]⟩]).cols :=
    (hmain.2.1 "b").mpr ⟨⟨["b"], [[("b", "2")]]⟩,
      List.mem_cons_of_mem _ (List.mem_cons_self _ _), List.mem_cons_self _ _⟩
  refine ⟨hmain.1, hb, List.mem_cons_self _ _, ?_⟩
  exact hmain.2.2 ⟨["a"], [[("a", "1")]]⟩ (List.mem_cons_self _ _)
    [("a", "1")] (List.mem_cons_self _ _) (by simp) "b" hb (by simp)

/-- An XML element as seen through lxml: a namespaced tag in
`\x7buri\x7dTag` form, optional text, attributes, children. -/
inductive Elem where
  | mk (tag : String) (text : Option String) (attrs : List (String × String))
      (children : List Elem)

/-- The element's namespaced tag. -/
def Elem.tag : Elem → String
  | .mk t _ _ _ => t

/-- The element's text (`None` for an empty element). -/
def Elem.text : Elem → Option String
  | .mk _ x _ _ => x

/-- The element's attributes (`element.get(name)` looks these up). -/
def Elem.attrs : Elem → List (String × String)
  | .mk _ _ a _ => a

/-- The element's children. -/
def Elem.children : Elem → List Elem
  | .mk _ _ _ c => c

/-- `tag.split("\x7d")[-1]`: strip the `\x7buri\x7d` namespace prefix — the
last split field is the suffix after the last `\x7d` (the whole tag when no
`\x7d` occurs). -/
def stripNs (t : String) : String :=
  String.mk ((t.data.reverse.takeWhile (fun c => c != '\x7d')).reverse)

/-- Replace the value stored at the first occurrence of `k`, keeping its
position (CPython dict update semantics). -/
def setInPlace (d : List (String × Val)) (k : String) (f : Val → Val) :
    List (String × Val) :=
  match d with
  | [] => []
  | (k', v) :: rest => if k' = k then (k', f v) :: rest else (k', v) :: setInPlace rest k f

/-- Promote an existing slot to a list accumulator and append (the collision
rule of `_add_to_dict` / `recursive_field_dict`). -/
def listifyAppend (existing : Val) (v : Val) : Val :=
  match existing with
  | .vlist l => .vlist (l ++ [v])
  | e => .vlist [e, v]

/-- `_add_to_dict(d, key, value)` from `src/dl_parser/utils.py`. -/
def add_to_dict (d : List (String × Val)) (key : String) (value : Val) :
    List (String × Val) :=
  if (d.lookup key).isSome then setInPlace d key (fun e => listifyAppend e value)
  else d ++ [(key, value)]

/-- An XML text node as a `Val` (`None` text becomes Python `None`). -/
def textVal : Option String → Val
  | some s => .prim s
  | none => .vnull

/-- The `for child in field` loop of `recursive_field_dict`
(`src/dl_parser/utils.py`): leaf texts are added via `_add_to_dict`, a new
nested tag recurses into a fresh dict, and a repeated nested tag is promoted
to a list accumulator with the new nested dict appended. -/
def recChildren (cs : List Elem) (fd : List (String × Val)) : List (String × Val) :=
  match cs with
  | [] => fd
  | c :: rest =>
    let tag := stripNs c.tag
    let fd' :=
      if c.children.isEmpty then add_to_dict fd tag (textVal c.text)
      else if (fd.lookup tag).isSome then
        setInPlace fd tag (fun e => listifyAppend e (Val.dict (recChildren c.children [])))
      else fd ++ [(tag, Val.dict (recChildren c.children []))]
    recChildren rest fd'
termination_by sizeOf cs
decreasing_by
  all_goals cases c with
    | mk t x a cc => simp [Elem.children] <;> omega

/-- `recursive_field_dict(field, field_dict)`: mirror the element's children
into `field_dict`. -/
def recursive_field_dict (field : Elem) (field_dict : List (String × Val)) :
    List (String × Val) :=
  recChildren field.children field_dict

/-- A cell of an extracted row: a direct entry field (text/href, possibly
`None`), a flattened detail value, or a float-cast amount. -/
inductive Cell where
  | text (s : Option String)
  | str (s : String)
  | num (s : String)
  deriving DecidableEq, Repr

/-- Python dict assignment `d[k] = v`: update in place or append. -/
def dictSet (d : List (String × Cell)) (k : String) (v : Cell) : List (String × Cell) :=
  match d with
  | [] => [(k, v)]
  | (k', v') :: rest => if k' = k then (k', v) :: rest else (k', v') :: dictSet rest k v

/-- Python `d.update(new)`. -/
def dictUpdate (d : List (String × Cell)) (new : List (String × Cell)) :
    List (String × Cell) :=
  new.foldl (fun acc kv => dictSet acc kv.1 kv.2) d

/-- Remove the first binding of `k`. -/
def removeKey (d : List (String × Cell)) (k : String) : List (String × Cell) :=
  match d with
  | [] => []
  | (k', v) :: rest => if k' = k then rest else (k', v) :: removeKey rest k

/-- Python `d.pop(k)` without a default: raises `KeyError` when absent. -/
def dictPop (d : List (String × Cell)) (k : String) :
    Except String (List (String × Cell)) :=
  if (d.lookup k).isSome then Except.ok (removeKey d k)
  else Except.error ("KeyError: " ++ k)

/-- The guarded pop of `get_data_list`
(`if pop_col in entry_data.keys(): entry_data.pop(pop_col)`). -/
def popIfPresent (d : List (String × Cell)) (k : String) : List (String × Cell) :=
  if (d.lookup k).isSome then removeKey d k else d

/-- `entry.find("cac-place-ext:ContractFolderStatus", ns)`: resolve the
`cac-place-ext` prefix against `ns` — raising when the prefix is absent from
the prefix map, as lxml does — and return the first direct child with the
resolved namespaced tag. -/
def findCFS (ns : List (String × String)) (entry : Elem) : Except String (Option Elem) :=
  match ns.lookup "cac-place-ext" with
  | none => Except.error "SyntaxError: prefix cac-place-ext not found in prefix map"
  | some uri =>
    Except.ok (entry.children.find? (fun c =>
      c.tag == "\x7b" ++ uri ++ "\x7dContractFolderStatus"))

/-- The direct-field loop shared by both extractors: each child contributes
its text under its stripped tag, except `link`, which contributes its `href`
attribute. -/
def directEntryData (entry : Elem) : List (String × Cell) :=
  entry.children.foldl (fun d f =>
    let tag := stripNs f.tag
    dictSet d tag (if tag != "link" then Cell.text f.text
                   else Cell.text (f.attrs.lookup "href"))) []

/-- The entry loop of `get_data_list` from `src/dl_parser/utils.py`: one row
per entry — direct fields, merged flattened details when present, then the
guarded pops of `summary` and `ContractFolderStatus`; a raise from
`entry.find` propagates. -/
def gdlGo (ns : List (String × String)) :
    List Elem → Except String (List (List (String × Cell)))
  | [] => Except.ok []
  | entry :: rest =>
    match findCFS ns entry with
    | Except.error er => Except.error er
    | Except.ok found =>
      let entry_data := directEntryData entry
      let entry_data :=
        match found with
        | some details =>
          dictUpdate entry_data
            ((flatten_dict (recursive_field_dict details []) "" ".").map
              (fun kv => (kv.1, Cell.str kv.2)))
        | none => entry_data
      let entry_data := popIfPresent entry_data "summary"
      let entry_data := popIfPresent entry_data "ContractFolderStatus"
      match gdlGo ns rest with
      | Except.error er => Except.error er
      | Except.ok tail => Except.ok (entry_data :: tail)

/-- `get_data_list(entries, ns)` from `src/dl_parser/utils.py`. -/
def get_data_list (entries : List Elem) (ns : List (String × String)) :
    Except String (List (List (String × Cell))) :=
  gdlGo ns entries

/-- The `open_tenders_cols` field mapping of `src/open_tenders/utils.py`:
flattened dotted path → output column name. -/
def open_tenders_cols : List (String × String) :=
  [("ContractFolderID", "ID"),
   ("ContractFolderStatusCode", "StatusCode"),
   ("LocatedContractingParty.Party.PartyName.Name", "ContractingParty"),
   ("LocatedContractingParty.Party.PostalAddress.CityName", "City"),
   ("LocatedContractingParty.Party.PostalAddress.Country.Name", "Country"),
   ("LocatedContractingParty.Party.PostalAddress.PostalZone", "ZipCode"),
   ("ProcurementProject.TypeCode", "ProjectTypeCode"),
   ("ProcurementProject.SubTypeCode", "ProjectSubTypeCode"),
   ("ProcurementProject.RequiredCommodityClassification.ItemClassificationCode", "CPVCode"),
   ("ProcurementProjectLot.ProcurementProject.RequiredCommodityClassification.ItemClassificationCode", "CPVLotCode"),
   ("ProcurementProject.BudgetAmount.EstimatedOverallContractAmount", "EstimatedAmount"),
   ("ProcurementProject.BudgetAmount.TotalAmount", "TotalAmount"),
   ("ProcurementProject.BudgetAmount.TaxExclusiveAmount", "TaxExclusiveAmount"),
   ("TenderingProcess.ProcedureCode", "ProcessCode"),
   ("TenderingProcess.TenderSubmissionDeadlinePeriod.EndDate", "ProcessEndDate")]

/-- The decimal value of a non-empty all-digit character run. -/
def digitsToNat? (cs : List Char) : Option Nat :=
  if cs ≠ [] ∧ cs.all (fun c => c.isDigit) then
    some (cs.foldl (fun n c => n * 10 + (c.toNat - 48)) 0)
  else none

/-- The Gregorian leap-year rule used by `datetime.date`. -/
def isLeapYear (y : Nat) : Bool :=
  y % 4 == 0 && (y % 100 != 0 || y % 400 == 0)

/-- Days in a month, as enforced by the `datetime.date` constructor. -/
def daysInMonth (y m : Nat) : Nat :=
  if m = 2 then (if isLeapYear y then 29 else 28)
  else if m = 4 ∨ m = 6 ∨ m = 9 ∨ m = 11 then 30
  else 31

/-- `datetime.strptime(s, "%Y-%m-%d").date()`: `%Y` takes exactly four
digits (and `datetime` requires year ≥ 1), `%m`/`%d` take one or two digits
with month 1–12 and a month-aware day bound (leap years included); every
other input raises `ValueError`, modelled as `none`. -/
def parseDate (s : String) : Option (Nat × Nat × Nat) :=
  match s.data.splitOn '-' with
  | [y, m, d] =>
    match digitsToNat? y, digitsToNat? m, digitsToNat? d with
    | some yn, some mn, some dn =>
      if y.length = 4 ∧ 1 ≤ yn ∧ (m.length = 1 ∨ m.length = 2) ∧ 1 ≤ mn ∧ mn ≤ 12
          ∧ (d.length = 1 ∨ d.length = 2) ∧ 1 ≤ dn ∧ dn ≤ daysInMonth yn mn
      then some (yn, mn, dn) else none
    | _, _, _ => none
  | _ => none

/-- Calendar comparison of parsed dates (`date₁ ≤ date₂`). -/
def dateLe (a b : Nat × Nat × Nat) : Bool :=
  if a.1 ≠ b.1 then decide (a.1 < b.1)
  else if a.2.1 ≠ b.2.1 then decide (a.2.1 < b.2.1)
  else decide (a.2.2 ≤ b.2.2)

/-- A non-empty all-digit string. -/
def digitsOnly (s : String) : Bool :=
  !s.isEmpty && s.all Char.isDigit

/-- The mantissa of a decimal literal: digits with an optional single dot. -/
def isMantissa (s : String) : Bool :=
  match s.splitOn "." with
  | [a] => digitsOnly a
  | [a, b] => (digitsOnly a && (b.isEmpty || b.all Char.isDigit))
      || (a.isEmpty && digitsOnly b)
  | _ => false

/-- PEP 515 underscore placement: every `_` sits between two digits. -/
def usOkAux : Option Char → List Char → Bool
  | _, [] => true
  | prev, c :: rest =>
    if c = '_' then
      (match prev with
       | some p => p.isDigit
       | none => false) &&
      (match rest with
       | r :: _ => r.isDigit
       | [] => false) &&
      usOkAux (some c) rest
    else usOkAux (some c) rest

/-- Whether Python `float(s)` accepts `s`: decimal literals with optional
sign, exponent and PEP 515 digit-group underscores, plus the special forms
`inf`/`infinity`/`nan` (case-insensitive, surrounding whitespace stripped). -/
def isFloatLit (s : String) : Bool :=
  let t := s.trim.toLower
  let t := if t.startsWith "-" || t.startsWith "+" then t.drop 1 else t
  if t = "inf" || t = "infinity" || t = "nan" then true
  else
    usOkAux none t.data &&
      (let t := String.mk (t.data.filter (fun c => c != '_'))
       match t.splitOn "e" with
       | [m] => isMantissa m
       | [m, ex] =>
         let ex := if ex.startsWith "-" || ex.startsWith "+" then ex.drop 1 else ex
         isMantissa m && digitsOnly ex
       | _ => false)

/-- The amount-cast of `get_data_list_open_tenders`:
`float(entry_data[field])` with `(ValueError, TypeError)` mapped to `None`. -/
def castAmount (c : Cell) : Cell :=
  match c with
  | .str s => if isFloatLit s then .num s else .text none
  | .text (some s) => if isFloatLit s then .num s else .text none
  | .text none => .text none
  | .num s => .num s

/-- The amount fields cast to float by the open-tenders extractor. -/
def otAmountFields : List String := ["EstimatedAmount", "TotalAmount", "TaxExclusiveAmount"]

/-- The flattened `ContractFolderStatus` details of an entry, when the
prefix resolves and the details element is present. -/
def otFlat (ns : List (String × String)) (e : Elem) : Option (List (String × String)) :=
  match findCFS ns e with
  | Except.ok (some d) => some (flatten_dict (recursive_field_dict d []) "" ".")
  | _ => none

/-- The `filtered_details` dict comprehension of `get_data_list_open_tenders`:
select and rename the declared columns present in the flattened details. -/
def otFiltered (fd : List (String × String)) : List (String × Cell) :=
  open_tenders_cols.filterMap (fun kv => (fd.lookup kv.1).map (fun x => (kv.2, Cell.str x)))

/-- The entry dict of a kept entry just before the pops: direct fields
updated with the filtered details. -/
def otUpdated (e : Elem) (fd : List (String × String)) : List (String × Cell) :=
  dictUpdate (directEntryData e) (otFiltered fd)

/-- The amount-cast loop (`for field in amount_fields: if field in entry_data: ...`). -/
def castAmounts (d : List (String × Cell)) : List (String × Cell) :=
  otAmountFields.foldl (fun d f =>
    if (d.lookup f).isSome then dictSet d f (castAmount ((d.lookup f).getD (Cell.text none)))
    else d) d

/-- The entry loop of `get_data_list_open_tenders` from
`src/open_tenders/utils.py`.  `prevFlat` models the Python local
`flat_details`, which is only assigned when an entry has details and is
otherwise read stale from the previous iteration (`NameError` on the first);
a non-`PUB` status or a missing/past submission deadline skips the entry, an
unparseable deadline raises `ValueError`, and a kept entry is renamed via
`open_tenders_cols`, stripped of `id`/`summary`/`ContractFolderStatus`
(`KeyError` when absent) and amount-cast. -/
def gdlotGo (ns : List (String × String)) (today : Nat × Nat × Nat) :
    List Elem → Option (List (String × String)) →
    Except String (List (List (String × Cell)))
  | [], _ => Except.ok []
  | entry :: rest, prevFlat =>
    match findCFS ns entry with
    | Except.error er => Except.error er
    | Except.ok found =>
    let flatOpt :=
      match found with
      | some details => some (flatten_dict (recursive_field_dict details []) "" ".")
      | none => prevFlat
    match flatOpt with
    | none => Except.error "NameError: flat_details referenced before assignment"
    | some flat_details =>
      if flat_details.lookup "ContractFolderStatusCode" ≠ some "PUB" then
        gdlotGo ns today rest (some flat_details)
      else
        match flat_details.lookup "TenderingProcess.TenderSubmissionDeadlinePeriod.EndDate" with
        | none => gdlotGo ns today rest (some flat_details)
        | some ed =>
          match parseDate ed with
          | none => Except.error "ValueError: strptime"
          | some d =>
            if dateLe d today then gdlotGo ns today rest (some flat_details)
            else
              match dictPop (otUpdated entry flat_details) "id" with
              | Except.error e => Except.error e
              | Except.ok ed1 =>
                match dictPop ed1 "summary" with
                | Except.error e => Except.error e
                | Except.ok ed2 =>
                  match dictPop ed2 "ContractFolderStatus" with
                  | Except.error e => Except.error e
                  | Except.ok ed3 =>
                    match gdlotGo ns today rest (some flat_details) with
                    | Except.error e => Except.error e
                    | Except.ok tail => Except.ok (castAmounts ed3 :: tail)

/-- `get_data_list_open_tenders(entries, ns)`; `today` stands for
`datetime.now().date()`. -/
def get_data_list_open_tenders (entries : List Elem) (ns : List (String × String))
    (today : Nat × Nat × Nat) : Except String (List (List (String × Cell))) :=
  gdlotGo ns today entries none

/-- The per-column loop of `map_codes` in `src/open_tenders/utils.py`:
`pl.col(col).map_elements(lambda x, m=maps[col]: m.get(x, x), return_dtype=pl.Utf8)`
applied to one column against one `code → nombre` map. -/
def mapCodesColumn (m : List (String × String)) (col : List String) : List String :=
  col.map (fun x => (m.lookup x).getD x)

theorem gdlotGo_cons_skip (ns : List (String × String)) (today : Nat × Nat × Nat)
    (e : Elem) (rest : List Elem) (prevFlat : Option (List (String × String)))
    (fd : List (String × String)) (hflat : otFlat ns e = some fd)
    (hskip : fd.lookup "ContractFolderStatusCode" ≠ some "PUB"
      ∨ fd.lookup "TenderingProcess.TenderSubmissionDeadlinePeriod.EndDate" = none
      ∨ ∃ ed d, fd.lookup "TenderingProcess.TenderSubmissionDeadlinePeriod.EndDate" = some ed
          ∧ parseDate ed = some d ∧ dateLe d today = true) :
    gdlotGo ns today (e :: rest) prevFlat = gdlotGo ns today rest (some fd) := by
  cases hf : findCFS ns e with
  | error er => rw [otFlat, hf] at hflat; simp at hflat
  | ok found =>
    cases found with
    | none => rw [otFlat, hf] at hflat; simp at hflat
    | some det =>
    have hfd : flatten_dict (recursive_field_dict det []) "" "." = fd := by
      rw [otFlat, hf] at hflat
      simpa using hflat
    rw [gdlotGo, hf]
    simp only [hfd]
    by_cases hst : fd.lookup "ContractFolderStatusCode" ≠ some "PUB"
    · rw [if_pos hst]
    · rw [if_neg hst]
      rcases hskip with h | h | ⟨ed, d, hed, hpd, hdl⟩
      · exact absurd h hst
      · simp only [h]
      · simp only [hed, hpd, hdl]
        rw [if_pos trivial]

theorem gdlotGo_cons_keep (ns : List (String × String)) (today : Nat × Nat × Nat)
    (e : Elem) (rest : List Elem) (prevFlat : Option (List (String × String)))
    (fd : List (String × String)) (ed : String) (d : Nat × Nat × Nat)
    (hflat : otFlat ns e = some fd)
    (hst : fd.lookup "ContractFolderStatusCode" = some "PUB")
    (hed : fd.lookup "TenderingProcess.TenderSubmissionDeadlinePeriod.EndDate" = some ed)
    (hpd : parseDate ed = some d)
    (hdl : dateLe d today = false)
    (h1 : ((otUpdated e fd).lookup "id").isSome = true)
    (h2 : ((removeKey (otUpdated e fd) "id").lookup "summary").isSome = true)
    (h3 : ((removeKey (removeKey (otUpdated e fd) "id") "summary").lookup
        "ContractFolderStatus").isSome = true) :
    gdlotGo ns today (e :: rest) prevFlat =
      match gdlotGo ns today rest (some fd) with
      | Except.error er => Except.error er
      | Except.ok tail => Except.ok (castAmounts
          (removeKey (removeKey (removeKey (otUpdated e fd) "id") "summary")
            "ContractFolderStatus") :: tail) := by
  cases hf : findCFS ns e with
  | error er => rw [otFlat, hf] at hflat; simp at hflat
  | ok found =>
    cases found with
    | none => rw [otFlat, hf] at hflat; simp at hflat
    | some det =>
    have hfd : flatten_dict (recursive_field_dict det []) "" "." = fd := by
      rw [otFlat, hf] at hflat
      simpa using hflat
    rw [gdlotGo, hf]
    simp only [hfd, hst]
    rw [if_neg (by simp)]
    simp only [hed, hpd, hdl]
    rw [if_neg (by simp)]
    simp only [dictPop, h1]
    rw [if_pos trivial]
    simp only [h2]
    rw [if_pos trivial]
    simp only [h3]
    rw [if_pos trivial]

theorem gdlGo_ok_length (ns : List (String × String)) (uri : String)
    (hns : ns.lookup "cac-place-ext" = some uri) :
    ∀ entries : List Elem, ∃ rows, gdlGo ns entries = Except.ok rows
      ∧ rows.length = entries.length := by
  intro entries
  induction entries with
  | nil => exact ⟨[], rfl, rfl⟩
  | cons e rest ih =>
    obtain ⟨rows, hrows, hlen⟩ := ih
    simp only [gdlGo, findCFS, hns, hrows]
    exact ⟨_, rfl, by simp [hlen]⟩

def nsEx : List (String × String) := [("cac-place-ext", "uri")]

def detRES : Elem := Elem.mk "\x7buri\x7dContractFolderStatus" none []
  [Elem.mk "\x7bx\x7dContractFolderStatusCode" (some "RES") [] []]

def entryRES : Elem := Elem.mk "\x7batom\x7dentry" none []
  [Elem.mk "\x7batom\x7did" (some "ID0") [] [],
   Elem.mk "\x7batom\x7dsummary" (some "S0") [] [],
   detRES]

def detPUB : Elem := Elem.mk "\x7buri\x7dContractFolderStatus" none []
  [Elem.mk "\x7bx\x7dContractFolderStatusCode" (some "PUB") [] [],
   Elem.mk "\x7bx\x7dTenderingProcess" none []
     [Elem.mk "\x7bx\x7dTenderSubmissionDeadlinePeriod" none []
       [Elem.mk "\x7bx\x7dEndDate" (some "2999-01-01") [] []]]]

def entryPUB : Elem := Elem.mk "\x7batom\x7dentry" none []
  [Elem.mk "\x7batom\x7did" (some "ID1") [] [],
   Elem.mk "\x7batom\x7dsummary" (some "S1") [] [],
   Elem.mk "\x7batom\x7dtitle" (some "T1") [] [],
   Elem.mk "\x7batom\x7dlink" none [("href", "http://x")] [],
   detPUB]

def fdPUB : List (String × String) :=
  [("ContractFolderStatusCode", "PUB"),
   ("TenderingProcess.TenderSubmissionDeadlinePeriod.EndDate", "2999-01-01")]

def detPUBnoEnd : Elem := Elem.mk "\x7buri\x7dContractFolderStatus" none []
  [Elem.mk "\x7bx\x7dContractFolderStatusCode" (some "PUB") [] []]

def entryPUBnoEnd : Elem := Elem.mk "\x7batom\x7dentry" none []
  [Elem.mk "\x7batom\x7did" (some "ID2") [] [],
   Elem.mk "\x7batom\x7dsummary" (some "S2") [] [],
   detPUBnoEnd]

def detPUBpast : Elem := Elem.mk "\x7buri\x7dContractFolderStatus" none []
  [Elem.mk "\x7bx\x7dContractFolderStatusCode" (some "PUB") [] [],
   Elem.mk "\x7bx\x7dTenderingProcess" none []
     [Elem.mk "\x7bx\x7dTenderSubmissionDeadlinePeriod" none []
       [Elem.mk "\x7bx\x7dEndDate" (some "2020-01-01") [] []]]]

def entryPUBpast : Elem := Elem.mk "\x7batom\x7dentry" none []
  [Elem.mk "\x7batom\x7did" (some "ID3") [] [],
   Elem.mk "\x7batom\x7dsummary" (some "S3") [] [],
   detPUBpast]

def fdPUBpast : List (String × String) :=
  [("ContractFolderStatusCode", "PUB"),
   ("TenderingProcess.TenderSubmissionDeadlinePeriod.EndDate", "2020-01-01")]

/-- C7: the open-tenders extractor keeps an entry only when its flattened
status code is `"PUB"` and its submission-deadline end date parses as a plain
calendar date strictly later than today: (a) an entry with a non-PUB status,
a missing end date, or a deadline of today or earlier contributes no row;
(b) a PUB entry with a parseable future deadline (whose `id`, `summary` and
`ContractFolderStatus` fields are present, as in real feeds) contributes
exactly one row; (c) whenever the `cac-place-ext` prefix resolves, the
general extractor `get_data_list` produces one row per entry with no status
or deadline test, so a non-PUB entry is present in its output while absent
from the open-tenders output. -/
theorem open_tenders_filter :
    (∀ (ns : List (String × String)) (today : Nat × Nat × Nat) (e : Elem)
        (fd : List (String × String)), otFlat ns e = some fd →
      (fd.lookup "ContractFolderStatusCode" ≠ some "PUB"
        ∨ fd.lookup "TenderingProcess.TenderSubmissionDeadlinePeriod.EndDate" = none
        ∨ ∃ ed d, fd.lookup "TenderingProcess.TenderSubmissionDeadlinePeriod.EndDate" = some ed
            ∧ parseDate ed = some d ∧ dateLe d today = true) →
      get_data_list_open_tenders [e] ns today = Except.ok [])
    ∧ (∀ (ns : List (String × String)) (today : Nat × Nat × Nat) (e : Elem)
        (fd : List (String × String)) (ed : String) (d : Nat × Nat × Nat),
      otFlat ns e = some fd →
      fd.lookup "ContractFolderStatusCode" = some "PUB" →
      fd.lookup "TenderingProcess.TenderSubmissionDeadlinePeriod.EndDate" = some ed →
      parseDate ed = some d → dateLe d today = false →
      ((otUpdated e fd).lookup "id").isSome = true →
      ((removeKey (otUpdated e fd) "id").lookup "summary").isSome = true →
      ((removeKey (removeKey (otUpdated e fd) "id") "summary").lookup
          "ContractFolderStatus").isSome = true →
      ∃ row, get_data_list_open_tenders [e] ns today = Except.ok [row])
    ∧ (∀ (entries : List Elem) (ns : List (String × String)) (uri : String),
      ns.lookup "cac-place-ext" = some uri →
      ∃ rows, get_data_list entries ns = Except.ok rows
        ∧ rows.length = entries.length) := by
  refine ⟨?_, ?_, ?_⟩
  · intro ns today e fd hflat hskip
    rw [get_data_list_open_tenders, gdlotGo_cons_skip ns today e [] none fd hflat hskip]
    rfl
  · intro ns today e fd ed d hflat hst hed hpd hdl h1 h2 h3
    refine ⟨castAmounts (removeKey (removeKey (removeKey (otUpdated e fd) "id") "summary")
      "ContractFolderStatus"), ?_⟩
    rw [get_data_list_open_tenders,
      gdlotGo_cons_keep ns today e [] none fd ed d hflat hst hed hpd hdl h1 h2 h3]
    rfl
  · intro entries ns uri hns
    rw [get_data_list]
    exact gdlGo_ok_length ns uri hns entries

/-- Witness for C7: a `RES` entry is dropped although the general extractor
produces a row for it, and a `PUB` entry with a future deadline is kept. -/
theorem open_tenders_filter_witness :
    (otFlat nsEx entryRES = some [("ContractFolderStatusCode", "RES")]
      ∧ get_data_list_open_tenders [entryRES] nsEx (2024, 1, 1) = Except.ok [])
    ∧ (otFlat nsEx entryPUB = some fdPUB
      ∧ ∃ row, get_data_list_open_tenders [entryPUB] nsEx (2024, 1, 1) = Except.ok [row])
    ∧ ∃ rows, get_data_list [entryRES] nsEx = Except.ok rows ∧ rows.length = 1 := by
  have hRES : otFlat nsEx entryRES = some [("ContractFolderStatusCode", "RES")] := by
    simp [otFlat, findCFS, entryRES, detRES, nsEx, Elem.children, Elem.tag, Elem.text,
      Elem.attrs, stripNs, recursive_field_dict, recChildren, add_to_dict, textVal,
      flatten_dict, List.find?]
  have hPUB : otFlat nsEx entryPUB = some fdPUB := by
    simp [otFlat, findCFS, entryPUB, detPUB, fdPUB, nsEx, Elem.children, Elem.tag,
      Elem.text, Elem.attrs, stripNs, recursive_field_dict, recChildren, add_to_dict,
      textVal, flatten_dict, flatten_list, flatten_dict_list, List.find?]
  refine ⟨⟨hRES, ?_⟩, ⟨hPUB, ?_⟩, ?_⟩
  · exact open_tenders_filter.1 nsEx (2024, 1, 1) entryRES _ hRES (Or.inl (by decide))
  · exact open_tenders_filter.2.1 nsEx (2024, 1, 1) entryPUB fdPUB "2999-01-01" (2999, 1, 1)
      hPUB (by decide) (by decide) (by decide) (by decide) (by decide) (by decide) (by decide)
  · exact open_tenders_filter.2.2 [entryRES] nsEx "uri" rfl

/-- C10: a `PUB` entry whose flattened details lack the
`TenderingProcess.TenderSubmissionDeadlinePeriod.EndDate` key is discarded,
exactly as a `PUB` entry whose deadline is today or earlier. -/
theorem open_tenders_missing_deadline_discarded :
    (∀ (ns : List (String × String)) (today : Nat × Nat × Nat) (e : Elem)
        (fd : List (String × String)), otFlat ns e = some fd →
      fd.lookup "ContractFolderStatusCode" = some "PUB" →
      fd.lookup "TenderingProcess.TenderSubmissionDeadlinePeriod.EndDate" = none →
      get_data_list_open_tenders [e] ns today = Except.ok [])
    ∧ (∀ (ns : List (String × String)) (today : Nat × Nat × Nat) (e : Elem)
        (fd : List (String × String)) (ed : String) (d : Nat × Nat × Nat),
      otFlat ns e = some fd →
      fd.lookup "ContractFolderStatusCode" = some "PUB" →
      fd.lookup "TenderingProcess.TenderSubmissionDeadlinePeriod.EndDate" = some ed →
      parseDate ed = some d → dateLe d today = true →
      get_data_list_open_tenders [e] ns today = Except.ok []) := by
  constructor
  · intro ns today e fd hflat _ hend
    rw [get_data_list_open_tenders,
      gdlotGo_cons_skip ns today e [] none fd hflat (Or.inr (Or.inl hend))]
    rfl
  · intro ns today e fd ed d hflat _ hed hpd hdl
    rw [get_data_list_open_tenders,
      gdlotGo_cons_skip ns today e [] none fd hflat (Or.inr (Or.inr ⟨ed, d, hed, hpd, hdl⟩))]
    rfl

/-- Witness for C10: a `PUB` entry with no `EndDate` key and a `PUB` entry
with a past deadline are both discarded. -/
theorem open_tenders_missing_deadline_discarded_witness :
    (otFlat nsEx entryPUBnoEnd = some [("ContractFolderStatusCode", "PUB")]
      ∧ get_data_list_open_tenders [entryPUBnoEnd] nsEx (2024, 1, 1) = Except.ok [])
    ∧ (otFlat nsEx entryPUBpast = some fdPUBpast
      ∧ get_data_list_open_tenders [entryPUBpast] nsEx (2024, 1, 1) = Except.ok []) := by
  have hnoEnd : otFlat nsEx entryPUBnoEnd = some [("ContractFolderStatusCode", "PUB")] := by
    simp [otFlat, findCFS, entryPUBnoEnd, detPUBnoEnd, nsEx, Elem.children, Elem.tag,
      Elem.text, Elem.attrs, stripNs, recursive_field_dict, recChildren, add_to_dict,
      textVal, flatten_dict, List.find?]
  have hpast : otFlat nsEx entryPUBpast = some fdPUBpast := by
    simp [otFlat, findCFS, entryPUBpast, detPUBpast, fdPUBpast, nsEx, Elem.children,
      Elem.tag, Elem.text, Elem.attrs, stripNs, recursive_field_dict, recChildren,
      add_to_dict, textVal, flatten_dict, flatten_list, flatten_dict_list, List.find?]
  refine ⟨⟨hnoEnd, ?_⟩, ⟨hpast, ?_⟩⟩
  · exact open_tenders_missing_deadline_discarded.1 nsEx (2024, 1, 1) entryPUBnoEnd _
      hnoEnd (by decide) (by decide)
  · exact open_tenders_missing_deadline_discarded.2 nsEx (2024, 1, 1) entryPUBpast
      fdPUBpast "2020-01-01" (2020, 1, 1) hpast (by decide) (by decide) (by decide) (by decide)

/-- C4: the code-mapping pass of `map_codes` looks each whole cell up as one
key with fallback to the original — it does not split underscore-delimited
multi-code values and does not produce a list of labels: mapping
`"30000000_99999999"` against `\x7b30000000 → "Office"\x7d` returns the
unsplit string `"30000000_99999999"`, although
`tests/open_tenders/test_utils.py` requires `["Office", "99999999"]`. -/
theorem map_codes_returns_unsplit_string :
    mapCodesColumn [("30000000", "Office")] ["30000000_99999999"] = ["30000000_99999999"]
    ∧ mapCodesColumn [("30000000", "Office")] ["30000000"] = ["Office"] := by
  constructor <;> rfl

end SPPD
